import Mathlib

/-!
Verification of the HTML regex scanner pipeline
(`src/html_regex_scanner/html_scanner_dynamic.py` and
`src/html_regex_scanner/html_scanner.py`).

The Python code applies a compiled regular expression to a text, then
normalises the matches into a table (a pandas DataFrame) whose columns are
inferred from the pattern: named groups if any, else positional groups,
else the whole match.  We embed:

  * the data the pipeline passes around (`RePattern`, `ReMatch`, `Table`);
  * `scan_with_regex` and `create_dataframe` of the dynamic scanner;
  * the `--distinct` deduplication step of `main` (pandas
    `drop_duplicates` with `keep=first` over the capturing columns);
  * `create_dataframe` of the fixed five-column scanner
    (`fixed_create_dataframe` below);
  * a small regex engine (`RE`, `runRE`, `finditer`) reproducing Python's
    leftmost-first, non-overlapping `finditer` semantics for the pattern
    constructs the test scenarios use (literals, concatenation,
    alternation, `\d+`, named and positional groups).
-/

/-- The two fixed metadata column names prepended by `create_dataframe`
(`base_columns` in `html_scanner_dynamic.py`, line 107). -/
def base_columns : List String := ["csv_output_name", "regex_pattern"]

/-- One Python `re.Match` as the scanner consumes it: the full matched text
(`match.group(0)`) and the positional captures `match.groups()`, where a
group that did not participate in the match is `none`. -/
structure ReMatch where
  fullMatch : String
  groups : List (Option String)
deriving DecidableEq, Repr

/-- The part of a compiled Python pattern the scanner inspects: the total
number of capturing groups, and `groupindex` — the named groups in
left-to-right declaration order, each with its 1-based group number.
(Python's `re` forbids two groups with the same name, so in any pattern
produced by `re.compile` the names are pairwise distinct.) -/
structure RePattern where
  numGroups : Nat
  names : List (String × Nat)
deriving DecidableEq, Repr

/-- Python's `match.group(i)` for a 1-based group number `i`: the capture if the
group participated, else `none`. -/
def getGroup (m : ReMatch) (i : Nat) : Option String :=
  (m.groups[i-1]?).join

/-- Python's `match.groupdict()`: each declared name mapped to its capture (or
`none`), in declaration order. -/
def groupdict (P : RePattern) (m : ReMatch) : List (String × Option String) :=
  P.names.map (fun ni => (ni.1, getGroup m ni.2))

/-- One element of the `matches` list built by `scan_with_regex`
(dynamic scanner, lines 54-66): a dict of named captures when the pattern
has named groups, else the tuple of positional captures (or the 1-tuple
holding the full match when the pattern has no groups). -/
inductive PyMatchRec where
  | dict (d : List (String × Option String))
  | tup (t : List (Option String))
deriving DecidableEq, Repr

/-- The record `scan_with_regex` appends for one match (dynamic scanner,
lines 54-66).  The `hasNamed` flag is `has_named_groups`; when it is
false and the pattern has groups the raw tuple is kept, and when the
pattern has no groups the 1-tuple `(match.group(0),)` is used. -/
def scanRecord (P : RePattern) (hasNamed : Bool) (m : ReMatch) : PyMatchRec :=
  if hasNamed then .dict (groupdict P m)
  else if m.groups.isEmpty then .tup [some m.fullMatch]
  else .tup m.groups

/-- The quantity `len(matches[0])` as used on line 71 of the dynamic scanner. -/
def recLen : PyMatchRec → Nat
  | .dict d => d.length
  | .tup t => t.length

/-- The generic column names `capturing_group_{i+1}` built on line 72. -/
def capGroupNames (n : Nat) : List String :=
  (List.range n).map (fun i => "capturing_group_" ++ Nat.repr (i+1))

/-- The triple returned by `scan_with_regex` (dynamic scanner). -/
structure ScanResult where
  recs : List PyMatchRec
  group_names : List String
  has_named_groups : Bool
deriving DecidableEq, Repr

/-- Function `scan_with_regex(html_content, pattern)` of the dynamic scanner
(lines 44-74), after `re.compile` succeeded and `finditer` returned
`found`.  `group_names` starts as `groupindex`'s keys; when there are no
named groups it is overwritten with generic names, but only when at least
one match was found (line 69 guards on `matches` being non-empty). -/
def scan_with_regex (P : RePattern) (found : List ReMatch) : ScanResult :=
  let group_names := P.names.map Prod.fst
  let has_named := !group_names.isEmpty
  let recs := found.map (scanRecord P has_named)
  if has_named then ⟨recs, group_names, true⟩
  else
    match recs with
    | [] => ⟨[], [], false⟩
    | r :: rs => ⟨r :: rs, capGroupNames (recLen r), false⟩

/-- A pandas DataFrame as the scanner uses it: ordered column labels
(which pandas does NOT require to be distinct) and rows of cells, where a
cell is `none` for Python `None` and `some s` for the string `s`. -/
structure Table where
  columns : List String
  rows : List (List (Option String))
deriving DecidableEq, Repr

/-- The group values appended to one row by `create_dataframe`
(dynamic scanner, lines 119-126): named mode looks each declared name up
in the match dict (`match.get(name)`, `none` when absent), positional
mode appends the tuple as is. -/
def rowValues (group_names : List String) : PyMatchRec → List (Option String)
  | .dict d => group_names.map (fun n => (d.lookup n).join)
  | .tup t => t

/-- Function `create_dataframe(matches, group_names, has_named_groups,
csv_name, pattern)` of the dynamic scanner (lines 99-133).  With no matches the
DataFrame is empty with columns `base_columns + group_names` if
`group_names` is non-empty, else just `base_columns` (line 111).
Otherwise every row is `[csv_name, pattern]` followed by the group
values, under columns `base_columns + group_names`.  (The Python code
branches on `has_named_groups` to pick dict or tuple access; the records
built by `scan_with_regex` are dicts exactly when that flag is true, so
branching on the record's constructor is the same computation.) -/
def create_dataframe (ms : List PyMatchRec) (group_names : List String)
    (csv_name pattern : String) : Table :=
  if ms.isEmpty then
    ⟨if group_names.isEmpty then base_columns else base_columns ++ group_names, []⟩
  else
    ⟨base_columns ++ group_names,
     ms.map (fun m => [some csv_name, some pattern] ++ rowValues group_names m)⟩

/-- The list `capturing_cols` of `main` (dynamic scanner, line 199): every column
label not among the metadata names. -/
def capturing_cols (columns : List String) : List String :=
  columns.filter (fun c => !(base_columns.contains c))

/-- The key pandas `drop_duplicates(subset=subset)` compares two rows by:
the row's cells in the columns whose label belongs to `subset`. -/
def rowKey (columns subset : List String) (r : List (Option String)) :
    List (Option String) :=
  ((columns.zip r).filter (fun p => subset.contains p.1)).map Prod.snd

/-- First-occurrence filter: keep a row iff its key was not seen before
(pandas `drop_duplicates` with the default `keep=first`; `None` cells
compare equal only to `None`). -/
def dropDupsAux {α β : Type} [DecidableEq β] (key : α → β) :
    List β → List α → List α
  | _, [] => []
  | seen, r :: rs =>
    if key r ∈ seen then dropDupsAux key seen rs
    else r :: dropDupsAux key (key r :: seen) rs

/-- Pandas `df.drop_duplicates(subset=subset)`: stable deduplication of the rows
keyed by the cells in the `subset` columns; columns unchanged. -/
def drop_duplicates (t : Table) (subset : List String) : Table :=
  ⟨t.columns, dropDupsAux (rowKey t.columns subset) [] t.rows⟩

/-- The `--distinct` step of `main` (dynamic scanner, lines 197-200):
drop duplicates over the capturing columns, i.e. all columns whose label
is not a metadata name. -/
def apply_distinct (t : Table) : Table :=
  drop_duplicates t (capturing_cols t.columns)

/-- The dynamic scanner's pipeline from a successfully compiled pattern
and the matches `finditer` found, to the final DataFrame of `main`
(lines 186-200): scan, build the DataFrame, optionally deduplicate. -/
def run_pipeline (P : RePattern) (found : List ReMatch)
    (output_file pattern : String) (distinct : Bool) : Table :=
  let s := scan_with_regex P found
  let df := create_dataframe s.recs s.group_names output_file pattern
  if distinct then apply_distinct df else df

/-- The run including pattern compilation (dynamic scanner, lines 43-78
and `main`): `re.compile` raising `re.error e` makes `scan_with_regex`
print `Invalid regex pattern: e` and call `sys.exit(1)`, so nothing after
it runs — no DataFrame is built and no CSV is written; we model that
aborted run as `.error`.  On success the pipeline runs on whatever
matches the engine finds (`finditer` is abstracted as a function of the
compiled pattern since the matching engine is Python's `re`). -/
def main_result (compiled : Except String RePattern)
    (matchesOf : RePattern → List ReMatch)
    (output_file pattern : String) (distinct : Bool) : Except String Table :=
  match compiled with
  | .error e => .error ("Invalid regex pattern: " ++ e)
  | .ok P => .ok (run_pipeline P (matchesOf P) output_file pattern distinct)

/-- The fixed column list of `html_scanner.py`'s `create_dataframe`
(lines 78-81 and 95-98). -/
def fixed_columns : List String :=
  ["csv_output_name", "regex_pattern",
   "capturing_group_1", "capturing_group_2", "capturing_group_3",
   "capturing_group_4", "capturing_group_5"]

/-- Function `create_dataframe(matches, csv_name, pattern)` of the fixed scanner
(`html_scanner.py`, lines 75-100).  Input tuples are the records built by
its `scan_with_regex` from `findall` (strings; a 0- or 1-group match is
already wrapped into a 1-tuple).  Each row is `[csv_name, pattern]`
followed by exactly five slots: `match[i]` when `i < len(match)`, else
`None` — captures beyond the fifth are never read. -/
def fixed_create_dataframe (ms : List (List String))
    (csv_name pattern : String) : Table :=
  if ms.isEmpty then
    ⟨fixed_columns, []⟩
  else
    ⟨fixed_columns,
     ms.map (fun m =>
       [some csv_name, some pattern] ++ (List.range 5).map (fun i => m[i]?))⟩

/-- Patterns for the regex engine: the constructs used by the spec's
concrete scenarios.  `digits` is `\d+`; `grp i n a` is a capturing group
with 1-based group number `i` and optional name `n`. -/
inductive RE where
  | chr (c : Char)
  | cat (a b : RE)
  | alt (a b : RE)
  | digits
  | grp (idx : Nat) (name : Option String) (a : RE)
deriving DecidableEq, Repr

/-- Captures accumulated while matching: (group number, group name,
captured characters). -/
abbrev Caps := List (Nat × Option String × List Char)

/-- Length of the longest digit prefix of `s`. -/
def countLeadingDigits : List Char → Nat
  | [] => 0
  | c :: s => if c.isDigit then countLeadingDigits s + 1 else 0

/-- Backtracking matcher, list-of-successes style: all ways the pattern
can match a prefix of `s`, in Python's preference order (earlier
alternative first, greedy `\d+` longest first).  Each result is the
remaining suffix and the captures made. -/
def runRE : RE → List Char → List (List Char × Caps)
  | .chr c, [] => (fun _ => []) c
  | .chr c, d :: s => if d = c then [(s, [])] else []
  | .cat a b, s =>
    (runRE a s).flatMap (fun p => (runRE b p.1).map (fun q => (q.1, p.2 ++ q.2)))
  | .alt a b, s => runRE a s ++ runRE b s
  | .digits, s =>
    let k := countLeadingDigits s
    (List.range k).map (fun j => (s.drop (k - j), []))
  | .grp i n a, s =>
    (runRE a s).map (fun p => (p.1, p.2 ++ [(i, n, s.take (s.length - p.1.length))]))

/-- One match found by `finditer`: its start offset, matched characters
and captures. -/
structure EMatch where
  start : Nat
  matched : List Char
  caps : Caps
deriving DecidableEq, Repr

/-- Python's `re.finditer` scanning loop from offset `pos` with explicit fuel: at
each offset try the pattern; on failure move one character right, on a
match of length `ℓ` emit it and resume at `pos + max 1 ℓ` (Python
advances past the match, and past one character after an empty match).
Offsets `0 .. s.length` are tried, so `s.length + 1` fuel suffices. -/
def fiAux (re : RE) (s : List Char) : Nat → Nat → List EMatch
  | _, 0 => []
  | pos, fuel + 1 =>
    if pos > s.length then []
    else
      match (runRE re (s.drop pos)).head? with
      | none => if pos = s.length then [] else fiAux re s (pos + 1) fuel
      | some (rest, caps) =>
        let len := (s.length - pos) - rest.length
        let m : EMatch := ⟨pos, (s.drop pos).take len, caps⟩
        if len = 0 then m :: fiAux re s (pos + 1) fuel
        else m :: fiAux re s (pos + len) fuel

/-- Python's `re.finditer(pattern, s)` as a list, in document order. -/
def finditer (re : RE) (s : List Char) : List EMatch :=
  fiAux re s 0 (s.length + 1)

/-- The capturing groups of a pattern in left-to-right declaration order
(group number, optional name). -/
def groupList : RE → List (Nat × Option String)
  | .chr _ => []
  | .digits => []
  | .cat a b => groupList a ++ groupList b
  | .alt a b => groupList a ++ groupList b
  | .grp i n a => (i, n) :: groupList a

/-- The compiled-pattern data (`re.Pattern.groups` and
`re.Pattern.groupindex`) of an engine pattern. -/
def reToPattern (re : RE) : RePattern :=
  ⟨(groupList re).length,
   (groupList re).filterMap (fun p => p.2.map (fun nm => (nm, p.1)))⟩

/-- The capture recorded for group number `i`, if it participated. -/
def capLookup (caps : Caps) (i : Nat) : Option (List Char) :=
  (caps.find? (fun c => c.1 = i)).map (fun c => c.2.2)

/-- Repackage an engine match as the `ReMatch` view the scanner reads
(`group(0)` and `groups()`). -/
def toReMatch (numGroups : Nat) (m : EMatch) : ReMatch :=
  ⟨String.mk m.matched,
   (List.range numGroups).map (fun j => (capLookup m.caps (j + 1)).map String.mk)⟩

/-- All matches of `re` in `s`, as the scanner's `ReMatch` records, in
document order. -/
def pyMatches (re : RE) (s : List Char) : List ReMatch :=
  (finditer re s).map (toReMatch (reToPattern re).numGroups)

/-- The spec's `extract(pattern, text, source_id)`: the dynamic scanner pipeline run
on the engine's matches, without the distinct flag. -/
def extract (re : RE) (text : List Char) (output_file pattern_text : String) :
    Table :=
  run_pipeline (reToPattern re) (pyMatches re text) output_file pattern_text false

/-- Literal string pattern, e.g. `lit "foo"` for the pattern `foo`. -/
def lit (s : String) : RE :=
  match s.toList with
  | [] => .digits
  | c :: cs => cs.foldl (fun acc d => .cat acc (.chr d)) (.chr c)

/-- Deduplication as the spec's §4.5 words it, for comparison with the
code's `drop_duplicates`: keep the first row of each equivalence class
(two rows are duplicates iff their keys are equal), dropping every later
duplicate; first-occurrence order is preserved. -/
def specDedup {α β : Type} [DecidableEq β] (key : α → β) : List α → List α
  | [] => []
  | r :: rs => r :: specDedup key (rs.filter (fun x => key x != key r))
termination_by l => l.length
decreasing_by
  exact Nat.lt_succ_of_le (List.length_filter_le _ _)

/-- The row the dynamic pipeline materialises for one match, given the
scan result it was part of. -/
def pipelineRow (P : RePattern) (s : ScanResult) (out pat : String)
    (m : ReMatch) : List (Option String) :=
  [some out, some pat] ++ rowValues s.group_names (scanRecord P s.has_named_groups m)

/-- Scenario E's pattern `(?P<a>x)|(?P<b>y)`. -/
def reAltNamed : RE :=
  .alt (.grp 1 (some "a") (.chr 'x')) (.grp 2 (some "b") (.chr 'y'))

/-- Scenario C's pattern `(foo)`. -/
def reFooGroup : RE := .grp 1 none (lit "foo")

lemma scan_with_regex_named (P : RePattern) (found : List ReMatch)
    (h : P.names ≠ []) :
    scan_with_regex P found =
      ⟨found.map (scanRecord P true), P.names.map Prod.fst, true⟩ := by
  rcases hP : P.names with _ | ⟨n, ns⟩
  · exact absurd hP h
  · simp [scan_with_regex, hP]

lemma scan_with_regex_unnamed_nil (P : RePattern) (h : P.names = []) :
    scan_with_regex P [] = ⟨[], [], false⟩ := by
  simp [scan_with_regex, h]

lemma scan_with_regex_unnamed_cons (P : RePattern) (m : ReMatch)
    (ms : List ReMatch) (h : P.names = []) :
    scan_with_regex P (m :: ms) =
      ⟨(m :: ms).map (scanRecord P false),
       capGroupNames (recLen (scanRecord P false m)), false⟩ := by
  simp [scan_with_regex, h]

lemma create_dataframe_nil (gn : List String) (cn pat : String) :
    create_dataframe [] gn cn pat =
      ⟨if gn.isEmpty then base_columns else base_columns ++ gn, []⟩ := rfl

lemma create_dataframe_cons (r : PyMatchRec) (rs : List PyMatchRec)
    (gn : List String) (cn pat : String) :
    create_dataframe (r :: rs) gn cn pat =
      ⟨base_columns ++ gn,
       (r :: rs).map (fun m => [some cn, some pat] ++ rowValues gn m)⟩ := rfl

lemma run_pipeline_named (P : RePattern) (found : List ReMatch)
    (out pat : String) (h : P.names ≠ []) :
    run_pipeline P found out pat false =
      ⟨base_columns ++ P.names.map Prod.fst,
       found.map (fun m => [some out, some pat] ++
         (P.names.map Prod.fst).map (fun n => ((groupdict P m).lookup n).join))⟩ := by
  rcases hP : P.names with _ | ⟨n, ns⟩
  · exact absurd hP h
  · cases found with
    | nil =>
      simp [run_pipeline, scan_with_regex, create_dataframe, hP]
    | cons m ms =>
      simp [run_pipeline, scan_with_regex, create_dataframe, scanRecord,
        rowValues, hP]

lemma lookup_map_eq {γ : Type} (f : String × Nat → γ) :
    ∀ (l : List (String × Nat)), (l.map Prod.fst).Nodup →
      ∀ ni ∈ l, (l.map (fun nj => (nj.1, f nj))).lookup ni.1 = some (f ni) := by
  intro l
  induction l with
  | nil => simp
  | cons hd tl ih =>
    intro hnd ni hmem
    rcases List.mem_cons.mp hmem with rfl | hmem
    · simp [List.lookup]
    · have hne : ni.1 ≠ hd.1 := by
        intro hcontra
        have : hd.1 ∈ tl.map Prod.fst :=
          hcontra ▸ List.mem_map_of_mem Prod.fst hmem
        exact (List.nodup_cons.mp hnd).1 this
      have hbeq : (ni.1 == hd.1) = false := beq_eq_false_iff_ne.mpr hne
      simp only [List.map_cons, List.lookup, hbeq]
      exact ih (List.nodup_cons.mp hnd).2 ni hmem

lemma run_pipeline_named_getGroup (P : RePattern) (found : List ReMatch)
    (out pat : String) (h : P.names ≠ [])
    (hnd : (P.names.map Prod.fst).Nodup) :
    run_pipeline P found out pat false =
      ⟨base_columns ++ P.names.map Prod.fst,
       found.map (fun m => [some out, some pat] ++
         P.names.map (fun ni => getGroup m ni.2))⟩ := by
  rw [run_pipeline_named P found out pat h]
  congr 1
  apply List.map_congr_left
  intro m _
  congr 1
  rw [List.map_map]
  apply List.map_congr_left
  intro ni hni
  have : (groupdict P m).lookup ni.1 = some (getGroup m ni.2) :=
    lookup_map_eq (fun nj => getGroup m nj.2) P.names hnd ni hni
  simp [Function.comp, this]

/-- C1: for every pattern containing at least one named group, schema
inference yields group columns exactly equal to the named groups in
their left-to-right declaration order (`RePattern.names` is
`groupindex`, which lists the names in declaration order), and capturing
groups that are not named are not exposed at all: the columns are the
two metadata columns plus the declared names only, and each row carries
values only for the declared names.  The `Nodup` hypothesis holds for
every real pattern since Python rejects a pattern reusing a group name. -/
theorem named_groups_schema (P : RePattern) (found : List ReMatch)
    (out pat : String) (h : P.names ≠ [])
    (hnd : (P.names.map Prod.fst).Nodup) :
    (run_pipeline P found out pat false).columns =
      base_columns ++ P.names.map Prod.fst ∧
    (run_pipeline P found out pat false).rows =
      found.map (fun m => [some out, some pat] ++
        P.names.map (fun ni => getGroup m ni.2)) := by
  rw [run_pipeline_named_getGroup P found out pat h hnd]
  exact ⟨rfl, rfl⟩

/-- Witness for C1: pattern with named groups `a` (group 1) and `c`
(group 3) and an unnamed group 2; the schema shows `a` and `c` in order
and group 2 is not a column. -/
theorem named_groups_schema_witness :
    (run_pipeline ⟨3, [("a", 1), ("c", 3)]⟩
        [⟨"xyz", [some "x", some "y", some "z"]⟩] "o" "p" false).columns =
      ["csv_output_name", "regex_pattern", "a", "c"] ∧
    (run_pipeline ⟨3, [("a", 1), ("c", 3)]⟩
        [⟨"xyz", [some "x", some "y", some "z"]⟩] "o" "p" false).rows =
      [[some "o", some "p", some "x", some "z"]] :=
  named_groups_schema ⟨3, [("a", 1), ("c", 3)]⟩
    [⟨"xyz", [some "x", some "y", some "z"]⟩] "o" "p"
    (by decide) (by decide)

/-- Counterexample to C8: for the pattern `(?P<regex_pattern>x)` over
`"x"`, the named group collides with the metadata column
`regex_pattern`, and the schema keeps the colliding name unchanged — no
numeric suffix is appended and the column names are NOT unique. -/
theorem collision_no_suffix_cex :
    (extract (.grp 1 (some "regex_pattern") (.chr 'x')) "x".toList
        "out.csv" "(?P<regex_pattern>x)").columns =
      ["csv_output_name", "regex_pattern", "regex_pattern"] ∧
    ¬ (extract (.grp 1 (some "regex_pattern") (.chr 'x')) "x".toList
        "out.csv" "(?P<regex_pattern>x)").columns.Nodup := by
  exact ⟨by decide, by decide⟩

/-- C8 amended: when a named group collides with a metadata column name,
the group column keeps its declared name unchanged — the schema simply
contains duplicate column names.  No error is raised, the column is not
dropped, and every match still produces a row holding the captured
values: one row per match, each row being the metadata values followed
by every declared group's capture (`getGroup`), the colliding group's
value included.  The `Nodup` hypothesis reflects Python's ban on
duplicate group names (metadata names are not group names, so a
collision with them does not violate it). -/
theorem collision_keeps_name (P : RePattern) (found : List ReMatch)
    (out pat : String) (h : P.names ≠ [])
    (hnd : (P.names.map Prod.fst).Nodup) :
    (run_pipeline P found out pat false).columns =
      base_columns ++ P.names.map Prod.fst ∧
    (run_pipeline P found out pat false).rows.length = found.length ∧
    (run_pipeline P found out pat false).rows =
      found.map (fun m => [some out, some pat] ++
        P.names.map (fun ni => getGroup m ni.2)) := by
  rw [run_pipeline_named_getGroup P found out pat h hnd]
  exact ⟨rfl, List.length_map found _, rfl⟩

/-- Witness for the amended C8, at the colliding pattern
`(?P<regex_pattern>x)` with one match: the duplicate column labels, and
the row still carrying the captured value `"x"` in the colliding
column. -/
theorem collision_keeps_name_witness :
    (run_pipeline ⟨1, [("regex_pattern", 1)]⟩ [⟨"x", [some "x"]⟩]
        "out.csv" "(?P<regex_pattern>x)" false).columns =
      ["csv_output_name", "regex_pattern", "regex_pattern"] ∧
    (run_pipeline ⟨1, [("regex_pattern", 1)]⟩ [⟨"x", [some "x"]⟩]
        "out.csv" "(?P<regex_pattern>x)" false).rows.length = 1 ∧
    (run_pipeline ⟨1, [("regex_pattern", 1)]⟩ [⟨"x", [some "x"]⟩]
        "out.csv" "(?P<regex_pattern>x)" false).rows =
      [[some "out.csv", some "(?P<regex_pattern>x)", some "x"]] := by
  have h := collision_keeps_name ⟨1, [("regex_pattern", 1)]⟩
    [⟨"x", [some "x"]⟩] "out.csv" "(?P<regex_pattern>x)"
    (by decide) (by decide)
  simpa using h

lemma capGroupNames_length (n : Nat) : (capGroupNames n).length = n := by
  simp [capGroupNames]

lemma recLen_scanRecord_unnamed (P : RePattern) (m : ReMatch)
    (hm : m.groups.length = P.numGroups) :
    recLen (scanRecord P false m) = max 1 P.numGroups := by
  cases hg : m.groups with
  | nil =>
    have h0 : P.numGroups = 0 := by rw [← hm, hg]; rfl
    simp [scanRecord, recLen, hg, h0]
  | cons a l =>
    have h1 : P.numGroups = l.length + 1 := by rw [← hm, hg]; rfl
    simp [scanRecord, recLen, hg, h1]

lemma run_pipeline_columns_eq (P : RePattern) (found : List ReMatch)
    (out pat : String)
    (hlen : ∀ m ∈ found, m.groups.length = P.numGroups) :
    (run_pipeline P found out pat false).columns =
      if P.names ≠ [] then base_columns ++ P.names.map Prod.fst
      else if found ≠ [] then base_columns ++ capGroupNames (max 1 P.numGroups)
      else base_columns := by
  rcases hP : P.names with _ | ⟨n0, ns⟩
  · cases found with
    | nil =>
      rw [run_pipeline]
      simp [scan_with_regex_unnamed_nil P hP, create_dataframe, hP]
    | cons m ms =>
      have hm := hlen m (List.mem_cons_self m ms)
      rw [run_pipeline]
      simp only [scan_with_regex_unnamed_cons P m ms hP, List.map_cons,
        create_dataframe_cons]
      simp [hP, recLen_scanRecord_unnamed P m hm]
  · have hne : P.names ≠ [] := by rw [hP]; exact List.cons_ne_nil n0 ns
    rw [run_pipeline_named P found out pat hne]
    simp [hP]

lemma apply_distinct_columns (t : Table) :
    (apply_distinct t).columns = t.columns := rfl

lemma run_pipeline_distinct_columns (P : RePattern) (found : List ReMatch)
    (out pat : String) (d : Bool) :
    (run_pipeline P found out pat d).columns =
      (run_pipeline P found out pat false).columns := by
  cases d <;> rfl

lemma nodup_base_append (g : List String) :
    (base_columns ++ g).Nodup ↔ g.Nodup ∧ ∀ c ∈ g, c ∉ base_columns := by
  rw [List.nodup_append]
  constructor
  · rintro ⟨-, hg, hd⟩
    exact ⟨hg, fun c hc hcb => hd hcb hc⟩
  · rintro ⟨hg, hd⟩
    exact ⟨by decide, hg, fun a ha hga => hd a hga ha⟩

lemma drop_two_base_append (g : List String) :
    (base_columns ++ g).drop 2 = g := rfl

/-- Counterexample to C2: for the one-group pattern `(foo)` over the
text `"bar"` (zero matches), the produced schema has only the two
metadata columns, not `2 + max(1, 1) = 3` columns — with no matches and
no named groups the group columns are omitted entirely. -/
theorem schema_count_cex :
    (extract reFooGroup "bar".toList "out.csv" "(foo)").columns.length ≠
      2 + max 1 (reToPattern reFooGroup).numGroups := by
  decide

/-- C2 amended: the column count is `2 + number of named groups` when
the pattern has named groups; `2 + max(1, number of groups)` when it has
no named groups and at least one match was found; and exactly 2 (the
metadata columns alone) when it has no named groups and no match was
found.  Column names are unique iff the group columns are pairwise
distinct and none of them equals a metadata column name (a named group
may collide with a metadata name, in which case uniqueness fails).  The
hypothesis ties each match's `groups()` tuple to the pattern's group
count, as Python's `re` guarantees. -/
theorem schema_shape_amended (P : RePattern) (found : List ReMatch)
    (out pat : String) (d : Bool)
    (hlen : ∀ m ∈ found, m.groups.length = P.numGroups) :
    ((run_pipeline P found out pat d).columns.length =
      if P.names ≠ [] then 2 + P.names.length
      else if found ≠ [] then 2 + max 1 P.numGroups
      else 2) ∧
    ((run_pipeline P found out pat d).columns.Nodup ↔
      ((run_pipeline P found out pat d).columns.drop 2).Nodup ∧
      ∀ c ∈ (run_pipeline P found out pat d).columns.drop 2,
        c ∉ base_columns) := by
  rw [run_pipeline_distinct_columns P found out pat d,
    run_pipeline_columns_eq P found out pat hlen]
  split_ifs with h1 h2
  · refine ⟨?_, ?_⟩
    · simp only [base_columns, List.length_append, List.length_cons,
        List.length_nil, List.length_map]
    · rw [drop_two_base_append]
      exact nodup_base_append _
  · refine ⟨?_, ?_⟩
    · simp only [base_columns, List.length_append, List.length_cons,
        List.length_nil, capGroupNames_length]
    · rw [drop_two_base_append]
      exact nodup_base_append _
  · exact ⟨rfl, by decide⟩

/-- Witness for the amended C2: one-group pattern, one match. -/
theorem schema_shape_amended_witness :
    (run_pipeline ⟨1, []⟩ [⟨"5", [some "5"]⟩] "o" "p" false).columns.length = 3 ∧
    ((run_pipeline ⟨1, []⟩ [⟨"5", [some "5"]⟩] "o" "p" false).columns.Nodup ↔
      ((run_pipeline ⟨1, []⟩ [⟨"5", [some "5"]⟩] "o" "p" false).columns.drop 2).Nodup ∧
      ∀ c ∈ (run_pipeline ⟨1, []⟩ [⟨"5", [some "5"]⟩] "o" "p" false).columns.drop 2,
        c ∉ base_columns) := by
  have h := schema_shape_amended ⟨1, []⟩ [⟨"5", [some "5"]⟩] "o" "p" false
    (by decide)
  simpa using h

lemma run_pipeline_false (P : RePattern) (found : List ReMatch)
    (out pat : String) :
    run_pipeline P found out pat false =
      create_dataframe (scan_with_regex P found).recs
        (scan_with_regex P found).group_names out pat := rfl

lemma capGroupNames_one : capGroupNames 1 = ["capturing_group_1"] := by
  decide

/-- Counterexample to C3's scenario C: pattern `(foo)` over the
non-matching text `"bar"` yields an empty table whose columns are ONLY
the two metadata columns — `capturing_group_1` is absent, because the
generic group-column names are built only when at least one match was
found. -/
theorem scenarioC_cex :
    (extract reFooGroup "bar".toList "out.csv" "(foo)").columns =
      ["csv_output_name", "regex_pattern"] ∧
    "capturing_group_1" ∉
      (extract reFooGroup "bar".toList "out.csv" "(foo)").columns ∧
    (extract reFooGroup "bar".toList "out.csv" "(foo)").rows = [] := by
  exact ⟨by decide, by decide, by decide⟩

/-- C3 amended: for a pattern with no named groups whose matches carry
no positional captures (a zero-group pattern), the schema has exactly
one group column `capturing_group_1` and each row's sole group value is
the full matched substring — but only when at least one match was found;
with zero matches the table is empty with only the two metadata columns
(so scenario C's `(foo)` over a non-matching text yields columns
`[csv_output_name, regex_pattern]` and zero rows). -/
theorem groupless_table (P : RePattern) (found : List ReMatch)
    (out pat : String) (hnm : P.names = [])
    (hg : ∀ m ∈ found, m.groups = []) :
    (found = [] → run_pipeline P found out pat false = ⟨base_columns, []⟩) ∧
    (found ≠ [] →
      (run_pipeline P found out pat false).columns =
        base_columns ++ ["capturing_group_1"] ∧
      (run_pipeline P found out pat false).rows =
        found.map (fun m => [some out, some pat, some m.fullMatch])) := by
  constructor
  · rintro rfl
    rw [run_pipeline_false, scan_with_regex_unnamed_nil P hnm]
    rfl
  · intro hne
    cases found with
    | nil => exact absurd rfl hne
    | cons m ms =>
      have hrec : ∀ x ∈ m :: ms,
          scanRecord P false x = PyMatchRec.tup [some x.fullMatch] := by
        intro x hx
        simp [scanRecord, hg x hx]
      have hmap : (m :: ms).map (scanRecord P false) =
          (m :: ms).map (fun x => PyMatchRec.tup [some x.fullMatch]) :=
        List.map_congr_left hrec
      have hcols : capGroupNames (recLen (scanRecord P false m)) =
          ["capturing_group_1"] := by
        rw [hrec m (List.mem_cons_self m ms)]
        exact capGroupNames_one
      rw [run_pipeline_false, scan_with_regex_unnamed_cons P m ms hnm]
      show (create_dataframe ((m :: ms).map (scanRecord P false))
          (capGroupNames (recLen (scanRecord P false m))) out pat).columns =
            base_columns ++ ["capturing_group_1"] ∧
        (create_dataframe ((m :: ms).map (scanRecord P false))
          (capGroupNames (recLen (scanRecord P false m))) out pat).rows =
            (m :: ms).map (fun x => [some out, some pat, some x.fullMatch])
      rw [hmap, hcols, List.map_cons, create_dataframe_cons]
      refine ⟨rfl, ?_⟩
      rw [← List.map_cons (fun x => PyMatchRec.tup [some x.fullMatch]) m ms,
        List.map_map]
      apply List.map_congr_left
      intro x hx
      simp [Function.comp, rowValues]

/-- Witness for the amended C3: the zero-group pattern `foo` with one
match over `"foo"`. -/
theorem groupless_table_witness :
    (run_pipeline ⟨0, []⟩ [⟨"foo", []⟩] "o" "foo" false).columns =
      base_columns ++ ["capturing_group_1"] ∧
    (run_pipeline ⟨0, []⟩ [⟨"foo", []⟩] "o" "foo" false).rows =
      [[some "o", some "foo", some "foo"]] := by
  have h := (groupless_table ⟨0, []⟩ [⟨"foo", []⟩] "o" "foo" rfl
    (by decide)).2 (by decide)
  simpa using h

/-- C4: in named mode a named group that did not participate in a match
is recorded as the absent marker (`none`) rather than dropping the
match: every match yields exactly one row, and every row has the same
fixed shape — the metadata values followed by one value per declared
name (`getGroup` is `none` for a non-participating group).  Concretely,
`(?P<a>x)|(?P<b>y)` over `"x y"` yields two rows, `a="x", b=absent` then
`a=absent, b="y"`, with both columns `a` and `b` in the schema. -/
theorem named_absent_rows :
    (∀ (P : RePattern) (found : List ReMatch) (out pat : String),
      P.names ≠ [] → (P.names.map Prod.fst).Nodup →
      (run_pipeline P found out pat false).rows.length = found.length ∧
      (run_pipeline P found out pat false).rows =
        found.map (fun m => [some out, some pat] ++
          P.names.map (fun ni => getGroup m ni.2))) ∧
    extract reAltNamed "x y".toList "o" "(?P<a>x)|(?P<b>y)" =
      ⟨["csv_output_name", "regex_pattern", "a", "b"],
       [[some "o", some "(?P<a>x)|(?P<b>y)", some "x", none],
        [some "o", some "(?P<a>x)|(?P<b>y)", none, some "y"]]⟩ := by
  constructor
  · intro P found out pat h hnd
    rw [run_pipeline_named_getGroup P found out pat h hnd]
    exact ⟨List.length_map found _, rfl⟩
  · decide

/-- Witness for C4's general part: a match where group `b` did not
participate still yields one full-width row with `none` in `b`. -/
theorem named_absent_rows_witness :
    (run_pipeline ⟨2, [("a", 1), ("b", 2)]⟩ [⟨"x", [some "x", none]⟩]
        "o" "p" false).rows.length = 1 ∧
    (run_pipeline ⟨2, [("a", 1), ("b", 2)]⟩ [⟨"x", [some "x", none]⟩]
        "o" "p" false).rows =
      [[some "o", some "p", some "x", none]] := by
  have h := named_absent_rows.1 ⟨2, [("a", 1), ("b", 2)]⟩
    [⟨"x", [some "x", none]⟩] "o" "p" (by decide) (by decide)
  simpa using h

lemma dropDupsAux_sublist {α β : Type} [DecidableEq β] (key : α → β) :
    ∀ (seen : List β) (l : List α), List.Sublist (dropDupsAux key seen l) l := by
  intro seen l
  induction l generalizing seen with
  | nil => exact List.Sublist.refl []
  | cons r rs ih =>
    rw [dropDupsAux]
    by_cases h : key r ∈ seen
    · rw [if_pos h]
      exact (ih seen).cons r
    · rw [if_neg h]
      exact (ih (key r :: seen)).cons₂ r

lemma dropDupsAux_congr {α β : Type} [DecidableEq β] (key : α → β) :
    ∀ {s₁ s₂ : List β}, (∀ k, k ∈ s₁ ↔ k ∈ s₂) →
      ∀ (l : List α), dropDupsAux key s₁ l = dropDupsAux key s₂ l := by
  intro s₁ s₂ h l
  induction l generalizing s₁ s₂ with
  | nil => rfl
  | cons r rs ih =>
    rw [dropDupsAux, dropDupsAux]
    by_cases hr : key r ∈ s₁
    · rw [if_pos hr, if_pos ((h (key r)).mp hr)]
      exact ih h
    · rw [if_neg hr, if_neg (fun hc => hr ((h (key r)).mpr hc))]
      congr 1
      exact ih (fun k => by simp [h k])

lemma dropDupsAux_filter {α β : Type} [DecidableEq β] (key : α → β) (k : β) :
    ∀ (seen : List β) (l : List α),
      dropDupsAux key (k :: seen) l =
        dropDupsAux key seen (l.filter (fun x => key x != k)) := by
  intro seen l
  induction l generalizing seen with
  | nil => rfl
  | cons r rs ih =>
    by_cases hk : key r = k
    · have hmem : key r ∈ k :: seen := by rw [hk]; exact List.mem_cons_self k seen
      have hf : (key r != k) = false := by simp [hk]
      rw [dropDupsAux, if_pos hmem, List.filter_cons, hf]
      simp only [Bool.false_eq_true, if_false]
      exact ih seen
    · have hf : (key r != k) = true := by simp [hk]
      rw [List.filter_cons, hf]
      simp only [if_true]
      by_cases hs : key r ∈ seen
      · have hmem : key r ∈ k :: seen := List.mem_cons_of_mem k hs
        rw [dropDupsAux, if_pos hmem, dropDupsAux, if_pos hs]
        exact ih seen
      · have hmem : key r ∉ k :: seen := by
          intro hc
          rcases List.mem_cons.mp hc with hc | hc
          · exact hk hc
          · exact hs hc
        rw [dropDupsAux, if_neg hmem, dropDupsAux, if_neg hs]
        congr 1
        rw [dropDupsAux_congr key
          (show ∀ x, x ∈ key r :: k :: seen ↔ x ∈ k :: key r :: seen by
            intro x; simp; tauto) rs]
        exact ih (key r :: seen)

lemma dropDupsAux_eq_specDedup {α β : Type} [DecidableEq β] (key : α → β)
    (l : List α) : dropDupsAux key [] l = specDedup key l := by
  have H : ∀ (n : Nat) (l : List α), l.length ≤ n →
      dropDupsAux key [] l = specDedup key l := by
    intro n
    induction n with
    | zero =>
      intro l hl
      rw [List.length_eq_zero.mp (Nat.le_zero.mp hl), specDedup]
      rfl
    | succ n ih =>
      intro l hl
      match l with
      | [] =>
        rw [specDedup]
        rfl
      | r :: rs =>
        rw [specDedup]
        have h1 : dropDupsAux key [] (r :: rs) =
            r :: dropDupsAux key [key r] rs := by
          rw [dropDupsAux, if_neg (List.not_mem_nil (key r))]
        rw [h1, dropDupsAux_filter key (key r) [] rs]
        congr 1
        exact ih _ (le_trans (List.length_filter_le _ rs)
          (Nat.le_of_succ_le_succ hl))
  exact H l.length l le_rfl

lemma dropDupsAux_not_seen {α β : Type} [DecidableEq β] (key : α → β) :
    ∀ (seen : List β) (l : List α) (r : α),
      r ∈ dropDupsAux key seen l → key r ∉ seen := by
  intro seen l
  induction l generalizing seen with
  | nil =>
    intro r hr
    exact absurd hr (List.not_mem_nil r)
  | cons x xs ih =>
    intro r hr
    rw [dropDupsAux] at hr
    by_cases h : key x ∈ seen
    · rw [if_pos h] at hr
      exact ih seen r hr
    · rw [if_neg h] at hr
      rcases List.mem_cons.mp hr with rfl | hr
      · exact h
      · intro hc
        exact ih (key x :: seen) r hr (List.mem_cons_of_mem (key x) hc)

lemma dropDupsAux_pairwise {α β : Type} [DecidableEq β] (key : α → β) :
    ∀ (seen : List β) (l : List α),
      (dropDupsAux key seen l).Pairwise (fun a b => key a ≠ key b) := by
  intro seen l
  induction l generalizing seen with
  | nil => exact List.Pairwise.nil
  | cons x xs ih =>
    rw [dropDupsAux]
    by_cases h : key x ∈ seen
    · rw [if_pos h]
      exact ih seen
    · rw [if_neg h]
      refine List.pairwise_cons.mpr ⟨?_, ih (key x :: seen)⟩
      intro b hb hc
      exact dropDupsAux_not_seen key (key x :: seen) xs b hb
        (hc ▸ List.mem_cons_self (key x) seen)

lemma dropDupsAux_id {α β : Type} [DecidableEq β] (key : α → β) :
    ∀ (seen : List β) (l : List α),
      (∀ r ∈ l, key r ∉ seen) →
      l.Pairwise (fun a b => key a ≠ key b) →
      dropDupsAux key seen l = l := by
  intro seen l
  induction l generalizing seen with
  | nil => intro _ _; rfl
  | cons x xs ih =>
    intro h1 h2
    rw [dropDupsAux, if_neg (h1 x (List.mem_cons_self x xs))]
    congr 1
    apply ih (key x :: seen)
    · intro r hr hc
      rcases List.mem_cons.mp hc with hc | hc
      · exact (List.pairwise_cons.mp h2).1 r hr hc.symm
      · exact h1 r (List.mem_cons_of_mem x hr) hc
    · exact (List.pairwise_cons.mp h2).2

/-- C5: the distinct reduction of the dynamic scanner equals the spec's
description of deduplication — it removes exactly those rows whose
values in the capturing columns (the metadata columns are excluded from
the key) all equal those of an earlier row, comparing cells by exact
equality where the absent marker `none` equals only `none`; the first
occurrence of each equivalence class is kept in its original position
(the result is a sublist of the input), and the output row count is at
most the input row count. -/
theorem distinct_reduction_correct (t : Table) :
    (apply_distinct t).rows =
      specDedup (rowKey t.columns (capturing_cols t.columns)) t.rows ∧
    List.Sublist (apply_distinct t).rows t.rows ∧
    (apply_distinct t).rows.length ≤ t.rows.length := by
  refine ⟨dropDupsAux_eq_specDedup _ t.rows,
    dropDupsAux_sublist _ [] t.rows, ?_⟩
  exact (dropDupsAux_sublist _ [] t.rows).length_le

/-- C6: deduplication is idempotent — applying `drop_duplicates` twice
with the same group columns gives the same table as applying it once. -/
theorem dedup_idempotent (t : Table) (cols : List String) :
    drop_duplicates (drop_duplicates t cols) cols = drop_duplicates t cols := by
  have h : dropDupsAux (rowKey t.columns cols) []
      (dropDupsAux (rowKey t.columns cols) [] t.rows) =
      dropDupsAux (rowKey t.columns cols) [] t.rows := by
    apply dropDupsAux_id
    · intro r _
      exact List.not_mem_nil _
    · exact dropDupsAux_pairwise (rowKey t.columns cols) [] t.rows
  show (⟨t.columns, dropDupsAux (rowKey t.columns cols) []
      (dropDupsAux (rowKey t.columns cols) [] t.rows)⟩ : Table) =
    ⟨t.columns, dropDupsAux (rowKey t.columns cols) [] t.rows⟩
  rw [h]

lemma fiAux_succ_stop (re : RE) (s : List Char) (pos fuel : Nat)
    (h : s.length < pos) : fiAux re s pos (fuel + 1) = [] := by
  rw [fiAux, if_pos h]

lemma fiAux_succ_none (re : RE) (s : List Char) (pos fuel : Nat)
    (h : ¬ s.length < pos) (hh : (runRE re (s.drop pos)).head? = none) :
    fiAux re s pos (fuel + 1) =
      if pos = s.length then [] else fiAux re s (pos + 1) fuel := by
  rw [fiAux, if_neg h, hh]

lemma fiAux_succ_match (re : RE) (s : List Char) (pos fuel : Nat)
    (rest : List Char) (caps : Caps) (h : ¬ s.length < pos)
    (hh : (runRE re (s.drop pos)).head? = some (rest, caps)) :
    fiAux re s pos (fuel + 1) =
      (⟨pos, (s.drop pos).take ((s.length - pos) - rest.length), caps⟩ : EMatch) ::
        (if (s.length - pos) - rest.length = 0 then fiAux re s (pos + 1) fuel
         else fiAux re s (pos + ((s.length - pos) - rest.length)) fuel) := by
  rw [fiAux, if_neg h, hh]
  by_cases hlen : (s.length - pos) - rest.length = 0
  · simp only [if_pos hlen]
  · simp only [if_neg hlen]

lemma fiAux_start_le (re : RE) (s : List Char) :
    ∀ (fuel pos : Nat) (m : EMatch), m ∈ fiAux re s pos fuel → pos ≤ m.start := by
  intro fuel
  induction fuel with
  | zero =>
    intro pos m hm
    exact absurd hm (List.not_mem_nil m)
  | succ fuel ih =>
    intro pos m hm
    by_cases hpos : s.length < pos
    · rw [fiAux_succ_stop re s pos fuel hpos] at hm
      exact absurd hm (List.not_mem_nil m)
    · cases hh : (runRE re (s.drop pos)).head? with
      | none =>
        rw [fiAux_succ_none re s pos fuel hpos hh] at hm
        by_cases hend : pos = s.length
        · rw [if_pos hend] at hm
          exact absurd hm (List.not_mem_nil m)
        · rw [if_neg hend] at hm
          exact le_trans (Nat.le_succ pos) (ih (pos + 1) m hm)
      | some rc =>
        obtain ⟨rest, caps⟩ := rc
        rw [fiAux_succ_match re s pos fuel rest caps hpos hh] at hm
        rcases List.mem_cons.mp hm with rfl | hm
        · exact le_rfl
        · by_cases hlen : (s.length - pos) - rest.length = 0
          · rw [if_pos hlen] at hm
            exact le_trans (Nat.le_succ pos) (ih (pos + 1) m hm)
          · rw [if_neg hlen] at hm
            exact le_trans (Nat.le_add_right pos _) (ih _ m hm)

lemma fiAux_chain (re : RE) (s : List Char) :
    ∀ (fuel pos : Nat),
      List.Chain' (fun a b : EMatch =>
        a.start + a.matched.length ≤ b.start ∧ a.start < b.start)
        (fiAux re s pos fuel) := by
  intro fuel
  induction fuel with
  | zero => intro pos; exact List.chain'_nil
  | succ fuel ih =>
    intro pos
    by_cases hpos : s.length < pos
    · rw [fiAux_succ_stop re s pos fuel hpos]
      exact List.chain'_nil
    · cases hh : (runRE re (s.drop pos)).head? with
      | none =>
        rw [fiAux_succ_none re s pos fuel hpos hh]
        by_cases hend : pos = s.length
        · rw [if_pos hend]
          exact List.chain'_nil
        · rw [if_neg hend]
          exact ih (pos + 1)
      | some rc =>
        obtain ⟨rest, caps⟩ := rc
        rw [fiAux_succ_match re s pos fuel rest caps hpos hh]
        have htake : ((s.drop pos).take ((s.length - pos) - rest.length)).length =
            (s.length - pos) - rest.length := by
          rw [List.length_take, List.length_drop]
          exact min_eq_left (Nat.sub_le _ _)
        by_cases hlen : (s.length - pos) - rest.length = 0
        · rw [if_pos hlen]
          apply List.chain'_cons'.mpr
          refine ⟨?_, ih (pos + 1)⟩
          intro b hb
          have hble := fiAux_start_le re s fuel (pos + 1) b
            (List.mem_of_mem_head? hb)
          refine ⟨?_, ?_⟩
          · show pos + ((s.drop pos).take ((s.length - pos) - rest.length)).length ≤ b.start
            rw [htake, hlen]
            omega
          · show pos < b.start
            omega
        · rw [if_neg hlen]
          apply List.chain'_cons'.mpr
          refine ⟨?_, ih (pos + ((s.length - pos) - rest.length))⟩
          intro b hb
          have hble := fiAux_start_le re s fuel
            (pos + ((s.length - pos) - rest.length)) b
            (List.mem_of_mem_head? hb)
          refine ⟨?_, ?_⟩
          · show pos + ((s.drop pos).take ((s.length - pos) - rest.length)).length ≤ b.start
            rw [htake]
            omega
          · show pos < b.start
            omega

lemma run_pipeline_rows_map (P : RePattern) (found : List ReMatch)
    (out pat : String) :
    (run_pipeline P found out pat false).rows =
      found.map (pipelineRow P (scan_with_regex P found) out pat) := by
  rcases hP : P.names with _ | ⟨n0, ns⟩
  · cases found with
    | nil =>
      rw [run_pipeline_false, scan_with_regex_unnamed_nil P hP]
      rfl
    | cons m ms =>
      rw [run_pipeline_false, scan_with_regex_unnamed_cons P m ms hP]
      show (create_dataframe ((m :: ms).map (scanRecord P false))
          (capGroupNames (recLen (scanRecord P false m))) out pat).rows =
        (m :: ms).map (fun x => [some out, some pat] ++
          rowValues (capGroupNames (recLen (scanRecord P false m)))
            (scanRecord P false x))
      rw [List.map_cons, create_dataframe_cons]
      show (scanRecord P false m :: ms.map (scanRecord P false)).map
          (fun r => [some out, some pat] ++
            rowValues (capGroupNames (recLen (scanRecord P false m))) r) = _
      rw [← List.map_cons (scanRecord P false) m ms, List.map_map]
      rfl
  · have hne : P.names ≠ [] := by
      rw [hP]
      exact List.cons_ne_nil n0 ns
    cases found with
    | nil =>
      rw [run_pipeline_false, scan_with_regex_named P [] hne]
      rfl
    | cons m ms =>
      rw [run_pipeline_false, scan_with_regex_named P (m :: ms) hne]
      show (create_dataframe ((m :: ms).map (scanRecord P true))
          (P.names.map Prod.fst) out pat).rows =
        (m :: ms).map (fun x => [some out, some pat] ++
          rowValues (P.names.map Prod.fst) (scanRecord P true x))
      rw [List.map_cons, create_dataframe_cons]
      show (scanRecord P true m :: ms.map (scanRecord P true)).map
          (fun r => [some out, some pat] ++
            rowValues (P.names.map Prod.fst) r) = _
      rw [← List.map_cons (scanRecord P true) m ms, List.map_map]
      rfl

/-- C7: `extract` produces exactly one row per match, in the order the
matches occur in the text — the row list is the image of the `finditer`
match list, which itself is sorted by document position with
non-overlapping extents (each match starts at or after the end of the
previous one, and strictly to the right of its start — the leftmost-first,
non-overlapping scanning semantics, where an empty match still advances
the scan by one character). -/
theorem extract_row_order (re : RE) (s : List Char) (out pat : String) :
    (extract re s out pat).rows =
      (finditer re s).map (fun em =>
        pipelineRow (reToPattern re)
          (scan_with_regex (reToPattern re) (pyMatches re s)) out pat
          (toReMatch (reToPattern re).numGroups em)) ∧
    List.Chain' (fun a b : EMatch =>
      a.start + a.matched.length ≤ b.start ∧ a.start < b.start)
      (finditer re s) := by
  constructor
  · have h1 : (extract re s out pat).rows =
        (pyMatches re s).map (pipelineRow (reToPattern re)
          (scan_with_regex (reToPattern re) (pyMatches re s)) out pat) :=
      run_pipeline_rows_map (reToPattern re) (pyMatches re s) out pat
    rw [h1, pyMatches, List.map_map]
    rfl
  · exact fiAux_chain re s (s.length + 1) 0

/-- C9: when pattern compilation fails, the run aborts with a single
descriptive error naming the problem (`Invalid regex pattern: <e>`) and
nothing downstream happens — no table is produced and no output written
(the `.error` result models `sys.exit(1)` before any DataFrame or CSV
code runs), and there is no retry.  Zero matches, by contrast, is a
valid non-error outcome: the run succeeds with an empty table. -/
theorem pattern_error_aborts (matchesOf : RePattern → List ReMatch)
    (out pat : String) (d : Bool) :
    (∀ e, main_result (.error e) matchesOf out pat d =
      .error ("Invalid regex pattern: " ++ e)) ∧
    (∀ P, matchesOf P = [] →
      main_result (.ok P) matchesOf out pat d =
        .ok (run_pipeline P [] out pat d) ∧
      (run_pipeline P [] out pat d).rows = []) := by
  refine ⟨fun e => rfl, fun P h => ⟨?_, ?_⟩⟩
  · rw [main_result, h]
  · cases d with
    | false =>
      rcases hP : P.names with _ | ⟨n0, ns⟩
      · rw [run_pipeline_false, scan_with_regex_unnamed_nil P hP]
        rfl
      · rw [run_pipeline_false, scan_with_regex_named P []
          (by rw [hP]; exact List.cons_ne_nil n0 ns)]
        rfl
    | true =>
      rcases hP : P.names with _ | ⟨n0, ns⟩
      · show (apply_distinct (create_dataframe
            (scan_with_regex P []).recs
            (scan_with_regex P []).group_names out pat)).rows = []
        rw [scan_with_regex_unnamed_nil P hP]
        rfl
      · show (apply_distinct (create_dataframe
            (scan_with_regex P []).recs
            (scan_with_regex P []).group_names out pat)).rows = []
        rw [scan_with_regex_named P []
          (by rw [hP]; exact List.cons_ne_nil n0 ns)]
        rfl

/-- Witness for C9: a failing compilation aborts with the error message,
and a successful compilation with zero matches yields an empty table. -/
theorem pattern_error_aborts_witness :
    main_result (.error "missing ), unterminated subpattern")
        (fun _ => []) "out.csv" "(foo" false =
      .error ("Invalid regex pattern: " ++
        "missing ), unterminated subpattern") ∧
    main_result (.ok ⟨1, []⟩) (fun _ => []) "out.csv" "(foo)" false =
      .ok (run_pipeline ⟨1, []⟩ [] "out.csv" "(foo)" false) ∧
    (run_pipeline ⟨1, []⟩ [] "out.csv" "(foo)" false).rows = [] := by
  have h := pattern_error_aborts (fun _ => []) "out.csv" "(foo" false
  have h2 := pattern_error_aborts (fun _ => []) "out.csv" "(foo)" false
  exact ⟨h.1 "missing ), unterminated subpattern",
    (h2.2 ⟨1, []⟩ rfl).1, (h2.2 ⟨1, []⟩ rfl).2⟩

/-- C10: in the fixed-schema scanner, every produced row has exactly
seven cells — the two metadata values followed by exactly five group
slots: slot `i` holds `match[i]` when the match tuple has more than `i`
values and the absent marker `None` otherwise, so captures beyond the
fifth are silently dropped and shorter tuples are padded. -/
theorem fixed_rows_shape (ms : List (List String)) (out pat : String) :
    (fixed_create_dataframe ms out pat).columns = fixed_columns ∧
    (fixed_create_dataframe ms out pat).rows =
      ms.map (fun m => [some out, some pat] ++
        (List.range 5).map (fun i => m[i]?)) ∧
    ∀ r ∈ (fixed_create_dataframe ms out pat).rows, r.length = 7 := by
  cases ms with
  | nil => exact ⟨rfl, rfl, by intro r hr; exact absurd hr (List.not_mem_nil r)⟩
  | cons m0 rest =>
    refine ⟨rfl, rfl, ?_⟩
    intro r hr
    show r.length = 7
    have : r ∈ (m0 :: rest).map (fun m => [some out, some pat] ++
        (List.range 5).map (fun i => m[i]?)) := hr
    rcases List.mem_map.mp this with ⟨m, -, rfl⟩
    simp

/-- Witness for C10: a seven-value tuple is truncated to five slots and
a one-value tuple is padded with `none`. -/
theorem fixed_rows_shape_witness :
    (fixed_create_dataframe [["a", "b", "c", "d", "e", "f", "g"], ["z"]]
        "o" "p").rows =
      [[some "o", some "p", some "a", some "b", some "c", some "d", some "e"],
       [some "o", some "p", some "z", none, none, none, none]] ∧
    ∀ r ∈ (fixed_create_dataframe [["a", "b", "c", "d", "e", "f", "g"], ["z"]]
        "o" "p").rows, r.length = 7 := by
  have h := fixed_rows_shape [["a", "b", "c", "d", "e", "f", "g"], ["z"]] "o" "p"
  exact ⟨h.2.1.trans (by decide), h.2.2⟩
